import Mathlib

/-!
# 0/1 knapsack by dynamic programming (`src/main.cpp`)

A shallow embedding of `knapsack` (table fill and backward walk) and of the
harness check `check_sol`, followed by the properties proved about them.

Machine integers are natural numbers.  `unsigned` arithmetic that can wrap is
written with an explicit `% 2^32`, `size_t` arithmetic that can wrap with an
explicit `% 2^64`.

The table is a list of rows.  An access outside the allocated table is undefined
behaviour in C++; the total functions `tableGet` and `tableSet` read `0` and
write nothing there.  The only inputs on which `knapsack` makes such an access
are a non-empty item list with `max_weight = 2^32 - 1`, where the allocation
`max_weight + 1` wraps to rows of 0 cells.  The properties of `knapsack` that
involve the table are therefore stated for `max_weight < 2^32 - 1`, where
`knapsackChecked`, the same code with every access checked, never fails and
returns the same selection.
-/

namespace Knapsack

/-- Item of the source: `struct Item { unsigned weight; unsigned value; }`. -/
structure Item where
  weight : Nat
  value : Nat
deriving DecidableEq, Repr, Inhabited

/-- Number of values of the type `unsigned`. -/
def UINT_RANGE : Nat := 4294967296

/-- Number of values of the type `size_t`. -/
def SIZE_RANGE : Nat := 18446744073709551616

/-- The DP table, `std::vector<std::vector<unsigned>>`. -/
abbrev Table := List (List Nat)

/-- Read of `table[i][j]`.  Outside the table, where the C++ read is undefined, the value is
`0`; `tableGetChecked` is the read that fails there. -/
def tableGet (table : Table) (i j : Nat) : Nat :=
  (table.getD i []).getD j 0

/-- Write `table[i][j] = v`.  Outside the table, where the C++ write is undefined, nothing is
written; `tableSetChecked` is the write that fails there. -/
def tableSet (table : Table) (i j v : Nat) : Table :=
  table.set i ((table.getD i []).set j v)

/-- The allocation `table(n + 1, std::vector<unsigned>(max_weight + 1, 0))`;
`max_weight + 1` is an `unsigned` sum. -/
def initTable (n max_weight : Nat) : Table :=
  List.replicate (n + 1) (List.replicate ((max_weight + 1) % UINT_RANGE) 0)

/-- Body of the inner loop of `knapsack` for row `i` and column `j`
(lines 48-59). -/
def fillCell (items : List Item) (i : Nat) (table : Table) (j : Nat) : Table :=
  let it := items.getD (i - 1) default
  if it.weight > j then
    tableSet table i j (tableGet table (i - 1) j)
  else
    tableSet table i j
      (max (tableGet table (i - 1) j)
        ((tableGet table (i - 1) (j - it.weight) + it.value) % UINT_RANGE))

/-- Inner loop `for (j = 1; j <= max_weight; j++)` for a fixed row `i`. -/
def fillRow (items : List Item) (max_weight : Nat) (table : Table) (i : Nat) : Table :=
  (List.range' 1 max_weight).foldl (fillCell items i) table

/-- Outer loop `for (i = 1; i <= n; i++)` over the freshly allocated table. -/
def fillTable (items : List Item) (max_weight : Nat) : Table :=
  (List.range' 1 items.length).foldl (fillRow items max_weight)
    (initTable items.length max_weight)

/-- The `size_t` subtraction `currWeight -= weight` of the backward walk. -/
def subSize (currWeight weight : Nat) : Nat :=
  (currWeight + SIZE_RANGE - weight % SIZE_RANGE) % SIZE_RANGE

/-- The backward walk `while (currItem > 0 && currWeight > 0)` (lines 69-81);
`currWeight -= weight` is a `size_t` subtraction. -/
def walk (items : List Item) (table : Table) : Nat → Nat → List Bool → List Bool
  | 0, _, solution => solution
  | currItem + 1, currWeight, solution =>
    if currWeight = 0 then solution
    else if tableGet table (currItem + 1) currWeight ≠ tableGet table currItem currWeight then
      walk items table currItem (subSize currWeight (items.getD currItem default).weight)
        (solution.set currItem true)
    else
      walk items table currItem currWeight solution

/-- The function `knapsack` of the source (lines 24-83). -/
def knapsack (items : List Item) (max_weight : Nat) : List Bool :=
  let solution := List.replicate items.length false
  if items.length = 0 ∨ max_weight = 0 then solution
  else walk items (fillTable items max_weight) items.length max_weight solution

/-- The record `Test` of the harness. -/
structure Test where
  best_value : Nat
  max_weight : Nat
  items : List Item

/-- The accumulation loop of `check_sol` (lines 224-229): the `unsigned` sums
of the weights and of the values of the items marked `true`. -/
def checkSums : List Item → List Bool → Nat × Nat → Nat × Nat
  | it :: items, b :: sol, (weight, value) =>
    if b then
      checkSums items sol ((weight + it.weight) % UINT_RANGE, (value + it.value) % UINT_RANGE)
    else checkSums items sol (weight, value)
  | _, _, acc => acc

/-- The function `check_sol`: `true` when none of the three `CHECK`s fails. -/
def check_sol (t : Test) (sol : List Bool) : Bool :=
  decide (t.items.length = sol.length) &&
    (decide ((checkSums t.items sol (0, 0)).1 ≤ t.max_weight) &&
      decide ((checkSums t.items sol (0, 0)).2 = t.best_value))

/-- The fixed tests `tests[]` of the source (lines 104-111). -/
def tests : List Test :=
  [ ⟨0, 5, []⟩,
    ⟨0, 0, [⟨1, 1⟩, ⟨2, 2⟩, ⟨3, 3⟩]⟩,
    ⟨5, 5, [⟨1, 1⟩, ⟨2, 2⟩, ⟨3, 3⟩]⟩,
    ⟨7, 7, [⟨1, 1⟩, ⟨4, 5⟩, ⟨6, 6⟩]⟩,
    ⟨15, 10, [⟨2, 3⟩, ⟨3, 4⟩, ⟨4, 5⟩, ⟨5, 8⟩]⟩,
    ⟨220, 50, [⟨10, 60⟩, ⟨20, 100⟩, ⟨30, 120⟩]⟩ ]

/-- Exact (unbounded) total weight of the items marked `true`. -/
def selWeight : List Item → List Bool → Nat
  | it :: items, b :: sol => (if b then it.weight else 0) + selWeight items sol
  | _, _ => 0

/-- Exact (unbounded) total value of the items marked `true`. -/
def selValue : List Item → List Bool → Nat
  | it :: items, b :: sol => (if b then it.value else 0) + selValue items sol
  | _, _ => 0

/-- Sum of the values of all items. -/
def totalValue (items : List Item) : Nat := (items.map Item.value).sum

/-- A selection (one boolean per item) whose exact total weight fits. -/
def Feasible (items : List Item) (capacity : Nat) (sel : List Bool) : Prop :=
  sel.length = items.length ∧ selWeight items sel ≤ capacity

instance (items : List Item) (capacity : Nat) (sel : List Bool) :
    Decidable (Feasible items capacity sel) := by
  unfold Feasible; infer_instance

/-- The number `v` is the maximum total value over the feasible selections. -/
def IsMaxValue (items : List Item) (capacity v : Nat) : Prop :=
  (∃ sel, Feasible items capacity sel ∧ selValue items sel = v) ∧
    ∀ sel, Feasible items capacity sel → selValue items sel ≤ v

/-! ## The table after the fill loops -/

/-- Shape of the allocated table: `rows` rows of `cols` cells each. -/
def Shaped (rows cols : Nat) (t : Table) : Prop :=
  t.length = rows ∧ ∀ r ∈ t, r.length = cols

/-- Value stored by `fillCell` into the cell `(i, j)`. -/
def cellVal (items : List Item) (i : Nat) (table : Table) (j : Nat) : Nat :=
  let it := items.getD (i - 1) default
  if it.weight > j then tableGet table (i - 1) j
  else max (tableGet table (i - 1) j)
    ((tableGet table (i - 1) (j - it.weight) + it.value) % UINT_RANGE)

/-- Closed form of the filled table: the content of the cell `(i, j)`. -/
def cell (items : List Item) (max_weight : Nat) : Nat → Nat → Nat
  | 0, _ => 0
  | i + 1, j =>
    if 1 ≤ j ∧ j ≤ max_weight ∧ j < (max_weight + 1) % UINT_RANGE then
      if (items.getD i default).weight > j then cell items max_weight i j
      else max (cell items max_weight i j)
        ((cell items max_weight i (j - (items.getD i default).weight)
          + (items.getD i default).value) % UINT_RANGE)
    else 0

/-- Closed form of the backward walk: the flags of the first `k` items when the
walk stands at `currItem = k` with remaining budget `c`. -/
def recon (items : List Item) (max_weight : Nat) : Nat → Nat → List Bool
  | 0, _ => []
  | k + 1, c =>
    if c = 0 then List.replicate (k + 1) false
    else if cell items max_weight (k + 1) c ≠ cell items max_weight k c then
      recon items max_weight k (subSize c (items.getD k default).weight) ++ [true]
    else recon items max_weight k c ++ [false]

/-- The order on selections that compares two selections at the highest index where they
differ and ranks `false` below `true`: `RevLexLt a b` says that `a` is strictly below `b`. -/
def RevLexLt (a b : List Bool) : Prop :=
  ∃ k : Nat, a[k]? = some false ∧ b[k]? = some true ∧ ∀ j : Nat, k < j → a[j]? = b[j]?

/-! ## Variants of the walk and of `knapsack` used to state refinements -/

/-- The general path of `knapsack` (lines 27-29 and 39-82), that is `knapsack` without the
early return of lines 32-34. -/
def knapsackGeneral (items : List Item) (max_weight : Nat) : List Bool :=
  let solution := List.replicate items.length false
  walk items (fillTable items max_weight) items.length max_weight solution

/-! ## The same algorithm over unbounded natural numbers -/

/-- The allocation with `max_weight + 1` computed without wraparound. -/
def initTableNat (n max_weight : Nat) : Table :=
  List.replicate (n + 1) (List.replicate (max_weight + 1) 0)

/-- Body of the inner loop with the sum `table[i-1][j-w] + value` computed without
wraparound. -/
def fillCellNat (items : List Item) (i : Nat) (table : Table) (j : Nat) : Table :=
  let it := items.getD (i - 1) default
  if it.weight > j then
    tableSet table i j (tableGet table (i - 1) j)
  else
    tableSet table i j
      (max (tableGet table (i - 1) j) (tableGet table (i - 1) (j - it.weight) + it.value))

/-- Inner loop over `fillCellNat`. -/
def fillRowNat (items : List Item) (max_weight : Nat) (table : Table) (i : Nat) : Table :=
  (List.range' 1 max_weight).foldl (fillCellNat items i) table

/-- Outer loop over `fillRowNat`, from `initTableNat`. -/
def fillTableNat (items : List Item) (max_weight : Nat) : Table :=
  (List.range' 1 items.length).foldl (fillRowNat items max_weight)
    (initTableNat items.length max_weight)

/-- The backward walk with `currWeight -= weight` as a subtraction of natural numbers. -/
def walkNat (items : List Item) (table : Table) : Nat → Nat → List Bool → List Bool
  | 0, _, solution => solution
  | currItem + 1, currWeight, solution =>
    if currWeight = 0 then solution
    else if tableGet table (currItem + 1) currWeight ≠ tableGet table currItem currWeight then
      walkNat items table currItem (currWeight - (items.getD currItem default).weight)
        (solution.set currItem true)
    else
      walkNat items table currItem currWeight solution

/-- The algorithm of `knapsack` over unbounded natural numbers. -/
def knapsackNat (items : List Item) (max_weight : Nat) : List Bool :=
  let solution := List.replicate items.length false
  if items.length = 0 ∨ max_weight = 0 then solution
  else walkNat items (fillTableNat items max_weight) items.length max_weight solution

/-! ## The code with every access checked -/

/-- Checked read of `table[i][j]`: `none` when the row or the cell does not exist. -/
def tableGetChecked (table : Table) (i j : Nat) : Option Nat :=
  match table[i]? with
  | none => none
  | some row => row[j]?

/-- Checked write `table[i][j] = v`: `none` when the row or the cell does not exist. -/
def tableSetChecked (table : Table) (i j v : Nat) : Option Table :=
  match table[i]? with
  | none => none
  | some row => if j < row.length then some (table.set i (row.set j v)) else none

/-- Checked subtraction of unsigned numbers: `none` when it would underflow. -/
def subChecked (a b : Nat) : Option Nat :=
  if b ≤ a then some (a - b) else none

/-- The body of the inner loop (`fillCell`) with every read of `items`, every read and write
of `table` and the subtraction `j - weight` checked. -/
def fillCellChecked (items : List Item) (i : Nat) (table : Table) (j : Nat) : Option Table :=
  match items[i - 1]? with
  | none => none
  | some it =>
    if it.weight > j then
      (tableGetChecked table (i - 1) j).bind fun a =>
        tableSetChecked table i j a
    else
      (tableGetChecked table (i - 1) j).bind fun a =>
        (subChecked j it.weight).bind fun c =>
          (tableGetChecked table (i - 1) c).bind fun b =>
            tableSetChecked table i j (max a ((b + it.value) % UINT_RANGE))

/-- Inner loop over `fillCellChecked`; it stops with `none` at the first failed check. -/
def fillRowChecked (items : List Item) (max_weight : Nat) (table : Table) (i : Nat) :
    Option Table :=
  (List.range' 1 max_weight).foldlM (fillCellChecked items i) table

/-- Outer loop over `fillRowChecked`, from the allocated table. -/
def fillTableChecked (items : List Item) (max_weight : Nat) : Option Table :=
  (List.range' 1 items.length).foldlM (fillRowChecked items max_weight)
    (initTable items.length max_weight)

/-- The backward walk with the table reads, the write `solution[currItem-1] = true`, the read
of `items` and the subtraction `currWeight -= weight` checked. -/
def walkChecked (items : List Item) (table : Table) :
    Nat → Nat → List Bool → Option (List Bool)
  | 0, _, solution => some solution
  | currItem + 1, currWeight, solution =>
    if currWeight = 0 then some solution
    else
      (tableGetChecked table (currItem + 1) currWeight).bind fun a =>
        (tableGetChecked table currItem currWeight).bind fun b =>
          if a ≠ b then
            if currItem < solution.length then
              match items[currItem]? with
              | none => none
              | some it =>
                (subChecked currWeight it.weight).bind fun w =>
                  walkChecked items table currItem w (solution.set currItem true)
            else none
          else walkChecked items table currItem currWeight solution

/-- The function `knapsack` with every access and subtraction checked: `none` as soon as an
index is out of range or a subtraction would underflow. -/
def knapsackChecked (items : List Item) (max_weight : Nat) : Option (List Bool) :=
  let solution := List.replicate items.length false
  if items.length = 0 ∨ max_weight = 0 then some solution
  else
    (fillTableChecked items max_weight).bind fun table =>
      walkChecked items table items.length max_weight solution

/-! ## Lemmas about the table and the walk -/

theorem shaped_initTable (n max_weight : Nat) :
    Shaped (n + 1) ((max_weight + 1) % UINT_RANGE) (initTable n max_weight) := by
  constructor
  · simp [initTable]
  · intro r hr
    simp only [initTable] at hr
    rw [List.eq_of_mem_replicate hr]
    simp

theorem tableGet_initTable (n max_weight i j : Nat) :
    tableGet (initTable n max_weight) i j = 0 := by
  simp only [tableGet, initTable, List.getD_eq_getElem?_getD, List.getElem?_replicate]
  split_ifs <;> simp [List.getElem?_replicate]
  split_ifs <;> simp

theorem shaped_tableSet {rows cols : Nat} {t : Table} (h : Shaped rows cols t) (i j v : Nat) :
    Shaped rows cols (tableSet t i j v) := by
  obtain ⟨h1, h2⟩ := h
  refine ⟨by simp [tableSet, h1], ?_⟩
  intro r hr
  by_cases hi : i < t.length
  · rcases List.mem_or_eq_of_mem_set hr with hr | hr
    · exact h2 r hr
    · subst hr
      simp only [List.length_set, List.getD_eq_getElem?_getD, List.getElem?_eq_getElem hi,
        Option.getD_some]
      exact h2 _ (List.getElem_mem _)
  · rw [tableSet, List.set_eq_of_length_le (Nat.le_of_not_lt hi)] at hr
    exact h2 r hr

theorem tableGet_tableSet {rows cols : Nat} {t : Table} (h : Shaped rows cols t)
    (i j v i' j' : Nat) :
    tableGet (tableSet t i j v) i' j' =
      if i' = i ∧ j' = j ∧ i < rows ∧ j < cols then v else tableGet t i' j' := by
  obtain ⟨h1, h2⟩ := h
  by_cases hi : i < t.length
  · have hrow : (t[i]).length = cols := h2 _ (List.getElem_mem _)
    by_cases e : i' = i
    · subst e
      simp only [tableGet, tableSet, List.getD_eq_getElem?_getD, List.getElem?_set_self hi,
        List.getElem?_eq_getElem hi, Option.getD_some, List.getElem?_set]
      by_cases e2 : j = j'
      · subst e2
        by_cases hj : j < cols
        · simp [hj, hrow, h1 ▸ hi]
        · have hn : t[i'][j]? = none := List.getElem?_eq_none (by omega)
          simp [hj, hrow, hn]
      · have : ¬ j' = j := fun h => e2 h.symm
        simp [e2, this]
    · have e' : ¬ i = i' := fun h => e h.symm
      simp [tableGet, tableSet, e, List.getElem?_set_ne e']
  · have : ¬ i < rows := h1 ▸ hi
    rw [tableSet, List.set_eq_of_length_le (Nat.le_of_not_lt hi)]
    simp [this]

theorem fillCell_eq (items : List Item) (i : Nat) (t : Table) (j : Nat) :
    fillCell items i t j = tableSet t i j (cellVal items i t j) := by
  simp only [fillCell, cellVal]
  split_ifs <;> rfl

/-- Reading after the inner loop has handled the columns `1 .. m` of row `i`. -/
theorem fillRow_spec (items : List Item) {rows cols : Nat} (i : Nat) (hi : 1 ≤ i)
    (t : Table) (ht : Shaped rows cols t) (m : Nat) :
    Shaped rows cols (fillRow items m t i) ∧
      ∀ i' j', tableGet (fillRow items m t i) i' j' =
        if i' = i ∧ 1 ≤ j' ∧ j' ≤ m ∧ i < rows ∧ j' < cols then cellVal items i t j'
        else tableGet t i' j' := by
  induction m with
  | zero =>
    refine ⟨by simpa [fillRow] using ht, ?_⟩
    intro i' j'
    have : ¬ (i' = i ∧ 1 ≤ j' ∧ j' ≤ 0 ∧ i < rows ∧ j' < cols) := by omega
    rw [if_neg this]; simp [fillRow]
  | succ m ih =>
    obtain ⟨sh, rd⟩ := ih
    have step : fillRow items (m + 1) t i = fillCell items i (fillRow items m t i) (1 + m) := by
      simp [fillRow, List.range'_concat, List.foldl_append]
    have hcv : cellVal items i (fillRow items m t i) (1 + m) = cellVal items i t (1 + m) := by
      have hne : ∀ j', ¬ (i - 1 = i ∧ 1 ≤ j' ∧ j' ≤ m ∧ i < rows ∧ j' < cols) := by
        intro j'; omega
      simp only [cellVal, rd, hne, if_false]
    rw [step, fillCell_eq, hcv]
    refine ⟨shaped_tableSet sh _ _ _, ?_⟩
    intro i' j'
    rw [tableGet_tableSet sh, rd]
    by_cases h1 : i' = i ∧ j' = 1 + m ∧ i < rows ∧ 1 + m < cols
    · obtain ⟨a, b, c, d⟩ := h1
      subst a; subst b
      have : (i' = i' ∧ 1 ≤ 1 + m ∧ 1 + m ≤ m + 1 ∧ i' < rows ∧ 1 + m < cols) := by omega
      simp [c, d, this]
    · rw [if_neg h1]
      by_cases h2 : i' = i ∧ 1 ≤ j' ∧ j' ≤ m ∧ i < rows ∧ j' < cols
      · have : (i' = i ∧ 1 ≤ j' ∧ j' ≤ m + 1 ∧ i < rows ∧ j' < cols) := by omega
        rw [if_pos h2, if_pos this]
      · have : ¬ (i' = i ∧ 1 ≤ j' ∧ j' ≤ m + 1 ∧ i < rows ∧ j' < cols) := by omega
        rw [if_neg h2, if_neg this]


/-- Reading after the outer loop has handled the rows `1 .. k`. -/
theorem fillRows_spec (items : List Item) (max_weight k : Nat) (hk : k ≤ items.length) :
    Shaped (items.length + 1) ((max_weight + 1) % UINT_RANGE)
        ((List.range' 1 k).foldl (fillRow items max_weight)
          (initTable items.length max_weight)) ∧
      ∀ i' j', tableGet ((List.range' 1 k).foldl (fillRow items max_weight)
          (initTable items.length max_weight)) i' j' =
        if i' ≤ k then cell items max_weight i' j' else 0 := by
  induction k with
  | zero =>
    refine ⟨by simpa using shaped_initTable _ _, ?_⟩
    intro i' j'
    simp only [List.range'_zero, List.foldl_nil, tableGet_initTable]
    split_ifs with h
    · have : i' = 0 := by omega
      subst this; simp [cell]
    · rfl
  | succ k ih =>
    obtain ⟨sh, rd⟩ := ih (by omega)
    rw [List.range'_concat, List.foldl_append]
    simp only [Nat.one_mul, List.foldl_cons, List.foldl_nil, Nat.add_comm 1 k]
    obtain ⟨sh', rd'⟩ := fillRow_spec items (k + 1) (by omega) _ sh max_weight
    refine ⟨sh', ?_⟩
    intro i' j'
    rw [rd']
    by_cases h1 : i' = k + 1 ∧ 1 ≤ j' ∧ j' ≤ max_weight ∧ k + 1 < items.length + 1 ∧
        j' < (max_weight + 1) % UINT_RANGE
    · rw [if_pos h1]
      obtain ⟨a, b, c, d, e⟩ := h1
      subst a
      have hc : (1 ≤ j' ∧ j' ≤ max_weight ∧ j' < (max_weight + 1) % UINT_RANGE) := ⟨b, c, e⟩
      rw [if_pos (Nat.le_refl _)]
      simp only [cellVal, rd, Nat.add_sub_cancel, Nat.le_refl, if_true, cell, hc, and_self]
    · rw [if_neg h1, rd]
      by_cases h2 : i' ≤ k
      · have : i' ≤ k + 1 := by omega
        rw [if_pos h2, if_pos this]
      · rw [if_neg h2]
        by_cases h3 : i' ≤ k + 1
        · have e : i' = k + 1 := by omega
          subst e
          have hc : ¬ (1 ≤ j' ∧ j' ≤ max_weight ∧ j' < (max_weight + 1) % UINT_RANGE) := by
            intro ⟨a, b, c⟩; exact h1 ⟨by omega, a, b, by omega, c⟩
          simp [cell, hc]
        · rw [if_neg h3]

theorem tableGet_fillTable (items : List Item) (max_weight i j : Nat) :
    tableGet (fillTable items max_weight) i j =
      if i ≤ items.length then cell items max_weight i j else 0 :=
  (fillRows_spec items max_weight items.length (Nat.le_refl _)).2 i j

theorem length_recon (items : List Item) (max_weight k c : Nat) :
    (recon items max_weight k c).length = k := by
  induction k generalizing c with
  | zero => simp [recon]
  | succ k ih =>
    simp only [recon]
    split_ifs <;> simp [ih]

/-- The walk started at `currItem = k` over a solution whose first `k` flags are
still `false` leaves the closed form in those `k` places. -/
theorem walk_eq_recon (items : List Item) (max_weight k : Nat) (hk : k ≤ items.length)
    (c : Nat) (rest : List Bool) :
    walk items (fillTable items max_weight) k c (List.replicate k false ++ rest) =
      recon items max_weight k c ++ rest := by
  induction k generalizing c rest with
  | zero => simp [walk, recon]
  | succ k ih =>
    have hk' : k ≤ items.length := by omega
    have hsplit : List.replicate (k + 1) false ++ rest
        = List.replicate k false ++ (false :: rest) := by
      rw [List.replicate_succ']; simp
    have hset : (List.replicate (k + 1) false ++ rest).set k true
        = List.replicate k false ++ (true :: rest) := by
      rw [hsplit, List.set_append_right _ _ (by simp)]; simp
    simp only [walk, recon, tableGet_fillTable, if_pos hk, if_pos hk']
    split_ifs with h0 h1
    · rfl
    · rw [hset, ih hk']; simp
    · rw [hsplit, ih hk']; simp

theorem knapsack_eq_recon (items : List Item) (max_weight : Nat) :
    knapsack items max_weight = recon items max_weight items.length max_weight := by
  unfold knapsack
  split_ifs with h
  · rcases h with h | h
    · rw [h]; simp [recon]
    · subst h
      cases hn : items.length with
      | zero => simp [recon]
      | succ k => simp [recon]
  · have := walk_eq_recon items max_weight items.length (Nat.le_refl _) max_weight []
    simpa using this

theorem selWeight_snoc (xs : List Item) (s : List Bool) (x : Item) (b : Bool)
    (h : s.length = xs.length) :
    selWeight (xs ++ [x]) (s ++ [b]) = selWeight xs s + (if b then x.weight else 0) := by
  induction xs generalizing s with
  | nil =>
    cases s with
    | nil => simp [selWeight]
    | cons a s => simp at h
  | cons y ys ih =>
    cases s with
    | nil => simp at h
    | cons a s =>
      simp only [List.length_cons, Nat.add_right_cancel_iff] at h
      have e := ih s h
      rw [List.cons_append, List.cons_append, selWeight, selWeight, e]
      omega

theorem selValue_snoc (xs : List Item) (s : List Bool) (x : Item) (b : Bool)
    (h : s.length = xs.length) :
    selValue (xs ++ [x]) (s ++ [b]) = selValue xs s + (if b then x.value else 0) := by
  induction xs generalizing s with
  | nil =>
    cases s with
    | nil => simp [selValue]
    | cons a s => simp at h
  | cons y ys ih =>
    cases s with
    | nil => simp at h
    | cons a s =>
      simp only [List.length_cons, Nat.add_right_cancel_iff] at h
      have e := ih s h
      rw [List.cons_append, List.cons_append, selValue, selValue, e]
      omega

theorem selWeight_replicate_false (xs : List Item) (k : Nat) :
    selWeight xs (List.replicate k false) = 0 := by
  induction xs generalizing k with
  | nil => cases k <;> simp [selWeight, List.replicate]
  | cons y ys ih => cases k <;> simp [selWeight, List.replicate, ih]

theorem selValue_replicate_false (xs : List Item) (k : Nat) :
    selValue xs (List.replicate k false) = 0 := by
  induction xs generalizing k with
  | nil => cases k <;> simp [selValue, List.replicate]
  | cons y ys ih => cases k <;> simp [selValue, List.replicate, ih]

theorem take_succ_getD (items : List Item) (k : Nat) (hk : k < items.length) :
    items.take (k + 1) = items.take k ++ [items.getD k default] := by
  rw [List.take_succ, List.getD_eq_getElem?_getD, List.getElem?_eq_getElem hk]
  simp

theorem totalValue_snoc (xs : List Item) (x : Item) :
    totalValue (xs ++ [x]) = totalValue xs + x.value := by
  simp [totalValue]

theorem totalValue_take_le (items : List Item) (k : Nat) :
    totalValue (items.take k) ≤ totalValue items := by
  have h : totalValue items = totalValue (items.take k) + totalValue (items.drop k) := by
    conv_lhs => rw [← List.take_append_drop k items]
    simp [totalValue]
  omega

/-- Columns the fill loops never write hold 0 in every row. -/
theorem cell_outside (items : List Item) (max_weight i j : Nat)
    (h : ¬ (1 ≤ j ∧ j ≤ max_weight ∧ j < (max_weight + 1) % UINT_RANGE)) :
    cell items max_weight i j = 0 := by
  cases i with
  | zero => simp [cell]
  | succ i => simp only [cell, if_neg h]

/-- A cell that differs from the cell above it was produced by the "include"
operand of `std::max`. -/
theorem cell_ne_above (items : List Item) (max_weight k c : Nat)
    (h : cell items max_weight (k + 1) c ≠ cell items max_weight k c) :
    (1 ≤ c ∧ c ≤ max_weight ∧ c < (max_weight + 1) % UINT_RANGE) ∧
      (items.getD k default).weight ≤ c ∧
      cell items max_weight (k + 1) c =
        (cell items max_weight k (c - (items.getD k default).weight)
          + (items.getD k default).value) % UINT_RANGE ∧
      cell items max_weight k c < cell items max_weight (k + 1) c := by
  by_cases hr : 1 ≤ c ∧ c ≤ max_weight ∧ c < (max_weight + 1) % UINT_RANGE
  · refine ⟨hr, ?_⟩
    simp only [cell, if_pos hr] at h ⊢
    by_cases hw : (items.getD k default).weight > c
    · rw [if_pos hw] at h
      exact absurd rfl h
    · simp only [if_neg hw] at h ⊢
      refine ⟨by omega, ?_, ?_⟩
      · rcases Nat.le_total (cell items max_weight k c)
          ((cell items max_weight k (c - (items.getD k default).weight)
            + (items.getD k default).value) % UINT_RANGE) with h1 | h1
        · exact max_eq_right h1
        · exact absurd (max_eq_left h1) h
      · exact lt_of_le_of_ne (le_max_left _ _) (Ne.symm h)
  · exact absurd (by rw [cell_outside _ _ _ _ hr, cell_outside _ _ _ _ hr]) h

theorem cell_le_totalValue (items : List Item) (max_weight i j : Nat) :
    cell items max_weight i j ≤ totalValue (items.take i) := by
  induction i generalizing j with
  | zero => simp [cell]
  | succ i ih =>
    have hstep : totalValue (items.take i) + (items.getD i default).value
        ≤ totalValue (items.take (i + 1)) ∨ (items.getD i default).value = 0 := by
      by_cases hi : i < items.length
      · left; rw [take_succ_getD items i hi, totalValue_snoc]
      · right
        rw [List.getD_eq_getElem?_getD, List.getElem?_eq_none (Nat.le_of_not_lt hi)]
        rfl
    have hmono : totalValue (items.take i) ≤ totalValue (items.take (i + 1)) := by
      by_cases hi : i < items.length
      · rw [take_succ_getD items i hi, totalValue_snoc]; omega
      · rw [List.take_of_length_le (Nat.le_of_not_lt hi),
          List.take_of_length_le (by omega : items.length ≤ i + 1)]
    simp only [cell]
    split_ifs with h1 h2
    · exact le_trans (ih j) hmono
    · apply max_le
      · exact le_trans (ih j) hmono
      · have := ih (j - (items.getD i default).weight)
        have hm := Nat.mod_le (cell items max_weight i (j - (items.getD i default).weight)
          + (items.getD i default).value) UINT_RANGE
        rcases hstep with hs | hs
        · omega
        · rw [hs] at hm ⊢; simp only [Nat.add_zero] at hm ⊢; omega
    · exact Nat.zero_le _

theorem mod_uint_le (m : Nat) : m % UINT_RANGE ≤ UINT_RANGE :=
  Nat.le_of_lt (Nat.mod_lt _ (by decide))

/-- The `size_t` subtraction is exact when the item fits into a budget that
is a column of the table. -/
theorem subSize_eq (c w : Nat) (hw : w ≤ c) (hc : c < UINT_RANGE) : subSize c w = c - w := by
  have hU : UINT_RANGE = 4294967296 := rfl
  have hS : SIZE_RANGE = 18446744073709551616 := rfl
  unfold subSize
  rw [Nat.mod_eq_of_lt (by omega : w < SIZE_RANGE)]
  have : c + SIZE_RANGE - w = (c - w) + SIZE_RANGE := by omega
  rw [this, Nat.add_mod_right, Nat.mod_eq_of_lt (by omega)]

/-- Exact total weight of the flags produced by the walk from `(k, c)`. -/
theorem selWeight_recon_le (items : List Item) (max_weight k : Nat) (hk : k ≤ items.length)
    (c : Nat) :
    selWeight (items.take k) (recon items max_weight k c) ≤ c := by
  induction k generalizing c with
  | zero => simp [recon, selWeight]
  | succ k ih =>
    have hk' : k < items.length := by omega
    rw [take_succ_getD items k hk']
    simp only [recon]
    split_ifs with h0 h1
    · rw [selWeight_replicate_false]; exact Nat.zero_le _
    · obtain ⟨hr, hw, -, -⟩ := cell_ne_above items max_weight k c h1
      have hc : c < UINT_RANGE := lt_of_lt_of_le hr.2.2 (mod_uint_le _)
      rw [selWeight_snoc _ _ _ _ (by simp [length_recon, List.length_take, Nat.le_of_lt hk']),
        subSize_eq c _ hw hc]
      have := ih (Nat.le_of_lt hk') (c - (items.getD k default).weight)
      simp only [if_true]
      omega
    · rw [selWeight_snoc _ _ _ _ (by simp [length_recon, List.length_take, Nat.le_of_lt hk'])]
      have := ih (Nat.le_of_lt hk') c
      simpa using this

/-- Exact total value of the flags produced by the walk from `(k, c)`, when the
values of all items together stay below `2^32`. -/
theorem selValue_recon (items : List Item) (max_weight : Nat)
    (hv : totalValue items < UINT_RANGE) (k : Nat) (hk : k ≤ items.length) (c : Nat) :
    selValue (items.take k) (recon items max_weight k c) = cell items max_weight k c := by
  induction k generalizing c with
  | zero => simp [recon, selValue, cell]
  | succ k ih =>
    have hk' : k < items.length := by omega
    rw [take_succ_getD items k hk']
    simp only [recon]
    split_ifs with h0 h1
    · rw [selValue_replicate_false, cell_outside _ _ _ _ (by omega)]
    · obtain ⟨hr, hw, he, -⟩ := cell_ne_above items max_weight k c h1
      have hc : c < UINT_RANGE := lt_of_lt_of_le hr.2.2 (mod_uint_le _)
      rw [selValue_snoc _ _ _ _ (by simp [length_recon, List.length_take, Nat.le_of_lt hk']),
        subSize_eq c _ hw hc, ih (Nat.le_of_lt hk'), he]
      have h1 := cell_le_totalValue items max_weight k (c - (items.getD k default).weight)
      have h2 : totalValue (items.take (k + 1)) ≤ totalValue items := totalValue_take_le _ _
      rw [take_succ_getD items k hk', totalValue_snoc] at h2
      rw [Nat.mod_eq_of_lt (by omega)]
      simp
    · rw [selValue_snoc _ _ _ _ (by simp [length_recon, List.length_take, Nat.le_of_lt hk']),
        ih (Nat.le_of_lt hk')]
      simp only [ne_eq, not_not] at h1
      simp [h1]

theorem cols_eq (max_weight : Nat) (hm : max_weight < UINT_RANGE - 1) :
    (max_weight + 1) % UINT_RANGE = max_weight + 1 := by
  have hU : UINT_RANGE = 4294967296 := rfl
  exact Nat.mod_eq_of_lt (by omega)

/-- Every selection of length `k + 1` is a selection of length `k` followed by one flag. -/
theorem exists_snoc_of_length (s : List Bool) (k : Nat) (h : s.length = k + 1) :
    ∃ s0 b, s = s0 ++ [b] ∧ s0.length = k := by
  have hne : s ≠ [] := by intro e; rw [e] at h; simp at h
  refine ⟨s.dropLast, s.getLast hne, (List.dropLast_append_getLast hne).symm, ?_⟩
  simp [h]

/-- Items of weight 0 carrying no value: a selection of weight 0 has value 0. -/
theorem selValue_eq_zero_of_weight (xs : List Item)
    (h0 : ∀ it ∈ xs, it.weight = 0 → it.value = 0) (s : List Bool)
    (hw : selWeight xs s = 0) : selValue xs s = 0 := by
  induction xs generalizing s with
  | nil => cases s <;> simp [selValue]
  | cons y ys ih =>
    cases s with
    | nil => simp [selValue]
    | cons b s =>
      simp only [selWeight, Nat.add_eq_zero] at hw
      simp only [selValue, ih (fun it hit => h0 it (List.mem_cons_of_mem _ hit)) s hw.2,
        Nat.add_zero]
      cases b with
      | false => simp
      | true =>
        have : y.weight = 0 := by simpa using hw.1
        simpa using h0 y (List.mem_cons_self _ _) this

theorem getD_mem (items : List Item) (k : Nat) (hk : k < items.length) :
    items.getD k default ∈ items := by
  rw [List.getD_eq_getElem?_getD, List.getElem?_eq_getElem hk]
  exact List.getElem_mem _

/-- No selection of the first `k` items that fits the budget `c` is worth more than the
cell `(k, c)`. -/
theorem selValue_le_cell (items : List Item) (max_weight : Nat)
    (h0 : ∀ it ∈ items, it.weight = 0 → it.value = 0)
    (hv : totalValue items < UINT_RANGE) (hm : max_weight < UINT_RANGE - 1)
    (k : Nat) (hk : k ≤ items.length) (c : Nat) (hc : c ≤ max_weight) (s : List Bool)
    (hl : s.length = k) (hw : selWeight (items.take k) s ≤ c) :
    selValue (items.take k) s ≤ cell items max_weight k c := by
  induction k generalizing c s with
  | zero =>
    have : s = [] := List.length_eq_zero.mp hl
    subst this; simp [selValue]
  | succ k ih =>
    have hk' : k < items.length := by omega
    obtain ⟨s0, b, rfl, hl0⟩ := exists_snoc_of_length s k hl
    rw [take_succ_getD items k hk'] at hw ⊢
    have hl0' : s0.length = (items.take k).length := by
      rw [List.length_take, hl0]; omega
    rw [selWeight_snoc _ _ _ _ hl0'] at hw
    rw [selValue_snoc _ _ _ _ hl0']
    by_cases hc0 : c = 0
    · subst hc0
      have hz : selWeight (items.take k ++ [items.getD k default]) (s0 ++ [b]) = 0 := by
        rw [selWeight_snoc _ _ _ _ hl0']; omega
      have h0' : ∀ it ∈ items.take k ++ [items.getD k default],
          it.weight = 0 → it.value = 0 := by
        intro it hit
        rcases List.mem_append.mp hit with h | h
        · exact h0 it (List.mem_of_mem_take h)
        · rw [List.mem_singleton.mp h]; exact h0 _ (getD_mem items k hk')
      have := selValue_eq_zero_of_weight _ h0' _ hz
      rw [selValue_snoc _ _ _ _ hl0'] at this
      omega
    · have hr : 1 ≤ c ∧ c ≤ max_weight ∧ c < (max_weight + 1) % UINT_RANGE := by
        rw [cols_eq _ hm]; omega
      simp only [cell, if_pos hr]
      cases b with
      | false =>
        have h1 := ih (Nat.le_of_lt hk') c hc s0 hl0 (by simpa using hw)
        simp only [Bool.false_eq_true, if_false, Nat.add_zero]
        split_ifs
        · exact h1
        · exact le_trans h1 (le_max_left _ _)
      | true =>
        simp only [if_true] at hw ⊢
        have hwc : ¬ (items.getD k default).weight > c := by omega
        rw [if_neg hwc]
        have h1 := ih (Nat.le_of_lt hk') (c - (items.getD k default).weight) (by omega) s0 hl0
          (by omega)
        have h2 := cell_le_totalValue items max_weight k (c - (items.getD k default).weight)
        have h3 : totalValue (items.take (k + 1)) ≤ totalValue items := totalValue_take_le _ _
        rw [take_succ_getD items k hk', totalValue_snoc] at h3
        rw [Nat.mod_eq_of_lt (by omega)]
        exact le_trans (by omega) (le_max_right _ _)

/-- Meaning of the cell `(k, c)`: the best value of the first `k` items within budget `c`. -/
theorem isMaxValue_cell (items : List Item) (max_weight : Nat)
    (h0 : ∀ it ∈ items, it.weight = 0 → it.value = 0)
    (hv : totalValue items < UINT_RANGE) (hm : max_weight < UINT_RANGE - 1)
    (k : Nat) (hk : k ≤ items.length) (c : Nat) (hc : c ≤ max_weight) :
    IsMaxValue (items.take k) c (cell items max_weight k c) := by
  constructor
  · refine ⟨recon items max_weight k c, ⟨?_, selWeight_recon_le items max_weight k hk c⟩,
      selValue_recon items max_weight hv k hk c⟩
    rw [length_recon, List.length_take]; omega
  · intro s hs
    have hl : s.length = k := by rw [hs.1, List.length_take]; omega
    exact selValue_le_cell items max_weight h0 hv hm k hk c hc s hl hs.2

theorem isMaxValue_unique (items : List Item) (c v v' : Nat)
    (h : IsMaxValue items c v) (h' : IsMaxValue items c v') : v = v' := by
  obtain ⟨⟨s, hs, e⟩, ub⟩ := h
  obtain ⟨⟨s', hs', e'⟩, ub'⟩ := h'
  have a := ub s' hs'
  have b := ub' s hs
  omega

theorem pos_weight_zero_free (items : List Item) (hpos : ∀ it ∈ items, 1 ≤ it.weight) :
    ∀ it ∈ items, it.weight = 0 → it.value = 0 := by
  intro it hit hz
  have := hpos it hit
  omega

theorem uint_range_eq : UINT_RANGE = 2 ^ 32 := by norm_num [UINT_RANGE]

theorem knapsack_selWeight_le (items : List Item) (max_weight : Nat) :
    selWeight items (knapsack items max_weight) ≤ max_weight := by
  have h := selWeight_recon_le items max_weight items.length (Nat.le_refl _) max_weight
  rwa [List.take_length, ← knapsack_eq_recon] at h

theorem knapsack_selValue_eq_cell (items : List Item) (max_weight : Nat)
    (hv : totalValue items < UINT_RANGE) :
    selValue items (knapsack items max_weight) =
      cell items max_weight items.length max_weight := by
  have h := selValue_recon items max_weight hv items.length (Nat.le_refl _) max_weight
  rwa [List.take_length, ← knapsack_eq_recon] at h

theorem knapsack_isMaxValue (items : List Item) (max_weight : Nat)
    (h0 : ∀ it ∈ items, it.weight = 0 → it.value = 0)
    (hv : totalValue items < UINT_RANGE) (hm : max_weight < UINT_RANGE - 1) :
    IsMaxValue items max_weight (selValue items (knapsack items max_weight)) := by
  have h := isMaxValue_cell items max_weight h0 hv hm items.length (Nat.le_refl _) max_weight
    (Nat.le_refl _)
  rwa [List.take_length, ← knapsack_selValue_eq_cell items max_weight hv] at h

/-- C1 (counterexample): with a zero-weight item of positive value the returned selection is
beaten by a feasible one, both at capacity 0 (items `[(0,5)]`) and at capacity 1 (items
`[(0,5),(1,1)]`, where all items together weigh 1 and are worth 6 but the result is worth 5). -/
theorem knapsack_not_optimal_zero_weight :
    (Feasible [⟨0, 5⟩] 0 [true] ∧
        selValue [⟨0, 5⟩] (knapsack [⟨0, 5⟩] 0) < selValue [⟨0, 5⟩] [true]) ∧
      (Feasible [⟨0, 5⟩, ⟨1, 1⟩] 1 [true, true] ∧
        selValue [⟨0, 5⟩, ⟨1, 1⟩] (knapsack [⟨0, 5⟩, ⟨1, 1⟩] 1)
          < selValue [⟨0, 5⟩, ⟨1, 1⟩] [true, true]) := by
  decide

/-- C1 (amended): when every item of weight 0 has value 0, the values sum to less than `2^32`
and the capacity is below `2^32 - 1`, no selection of the items whose total weight is at most
the capacity has strictly greater total value than the selection `knapsack` returns. -/
theorem knapsack_no_better_selection (items : List Item) (max_weight : Nat)
    (h0 : ∀ it ∈ items, it.weight = 0 → it.value = 0)
    (hv : totalValue items < 2 ^ 32) (hm : max_weight < 2 ^ 32 - 1)
    (sel : List Bool) (hsel : Feasible items max_weight sel) :
    ¬ selValue items (knapsack items max_weight) < selValue items sel := by
  rw [← uint_range_eq] at hv hm
  exact Nat.not_lt.mpr ((knapsack_isMaxValue items max_weight h0 hv hm).2 sel hsel)

/-- C1 (amended), instance with an item of weight 0 and value 0 at capacity 2. -/
theorem knapsack_no_better_selection_witness :
    Feasible [⟨0, 0⟩, ⟨2, 3⟩, ⟨1, 1⟩] 2 [true, false, true] ∧
      ¬ selValue [⟨0, 0⟩, ⟨2, 3⟩, ⟨1, 1⟩] (knapsack [⟨0, 0⟩, ⟨2, 3⟩, ⟨1, 1⟩] 2)
          < selValue [⟨0, 0⟩, ⟨2, 3⟩, ⟨1, 1⟩] [true, false, true] :=
  ⟨by decide,
    knapsack_no_better_selection [⟨0, 0⟩, ⟨2, 3⟩, ⟨1, 1⟩] 2 (by decide) (by decide) (by decide)
      [true, false, true] (by decide)⟩

/-- C2: for a capacity below `2^32 - 1` the exact (unbounded) sum of the weights of the items
marked `true` by `knapsack` is at most the capacity; nothing is assumed about the items, so
zero weights and values that make the table wrap modulo `2^32` are covered. -/
theorem knapsack_feasible (items : List Item) (max_weight : Nat)
    (hm : max_weight < 2 ^ 32 - 1) :
    selWeight items (knapsack items max_weight) ≤ max_weight := by
  have _ := hm
  exact knapsack_selWeight_le items max_weight

/-- C2, instance with a zero-weight item and a value that makes the table wrap. -/
theorem knapsack_feasible_witness :
    selWeight [⟨0, 5⟩, ⟨1, 4294967295⟩, ⟨1, 3⟩] (knapsack [⟨0, 5⟩, ⟨1, 4294967295⟩, ⟨1, 3⟩] 2) ≤ 2 :=
  knapsack_feasible [⟨0, 5⟩, ⟨1, 4294967295⟩, ⟨1, 3⟩] 2 (by decide)

/-- C3: when every weight is at least 1, the values sum to less than `2^32` and the capacity is
below `2^32 - 1`, the total value of the items marked `true` by `knapsack` is the maximum total
value over all selections whose total weight is at most the capacity. -/
theorem knapsack_optimal_positive_weights (items : List Item) (max_weight : Nat)
    (hpos : ∀ it ∈ items, 1 ≤ it.weight)
    (hv : totalValue items < 2 ^ 32) (hm : max_weight < 2 ^ 32 - 1) :
    IsMaxValue items max_weight (selValue items (knapsack items max_weight)) := by
  rw [← uint_range_eq] at hv hm
  exact knapsack_isMaxValue items max_weight (pos_weight_zero_free items hpos) hv hm

/-- C3, instance on the fifth fixed test. -/
theorem knapsack_optimal_positive_weights_witness :
    IsMaxValue [⟨2, 3⟩, ⟨3, 4⟩, ⟨4, 5⟩, ⟨5, 8⟩] 10
      (selValue [⟨2, 3⟩, ⟨3, 4⟩, ⟨4, 5⟩, ⟨5, 8⟩] (knapsack [⟨2, 3⟩, ⟨3, 4⟩, ⟨4, 5⟩, ⟨5, 8⟩] 10)) :=
  knapsack_optimal_positive_weights [⟨2, 3⟩, ⟨3, 4⟩, ⟨4, 5⟩, ⟨5, 8⟩] 10 (by decide) (by decide)
    (by decide)

set_option maxRecDepth 100000 in
/-- C4: there are six fixed tests, and for each of them `check_sol` accepts the selection
returned by `knapsack`; the selection has the length of the item list, its exact total weight
is at most the capacity and its exact total value is the listed best value. -/
theorem fixtures_accepted :
    tests.length = 6 ∧ tests.all (fun t =>
      check_sol t (knapsack t.items t.max_weight) &&
        (decide ((knapsack t.items t.max_weight).length = t.items.length) &&
          (decide (selWeight t.items (knapsack t.items t.max_weight) ≤ t.max_weight) &&
            decide (selValue t.items (knapsack t.items t.max_weight) = t.best_value)))) = true := by
  decide

/-- C5: on the empty item list `knapsack` returns the empty selection for every capacity, and at
capacity 0 it returns, for every item list, the selection of the same length with every entry
`false`. -/
theorem knapsack_base_cases (items : List Item) (max_weight : Nat) :
    knapsack [] max_weight = [] ∧
      knapsack items 0 = List.replicate items.length false := by
  constructor <;> simp [knapsack]

/-- Meaning of the DP table where the allocation does not wrap: when every weight is at least 1,
the values sum to less than `2^32` and `1 ≤ capacity < 2^32 - 1`, every cell `table[i][c]` with `i ≤ n` and `c ≤ capacity` left by the
fill loops is the maximum total value over the selections of the first `i` items whose total
weight is at most `c`. -/
theorem table_meaning (items : List Item) (max_weight : Nat)
    (hpos : ∀ it ∈ items, 1 ≤ it.weight) (hv : totalValue items < 2 ^ 32)
    (hcap : 1 ≤ max_weight) (hm : max_weight < 2 ^ 32 - 1)
    (i c : Nat) (hi : i ≤ items.length) (hc : c ≤ max_weight) :
    IsMaxValue (items.take i) c (tableGet (fillTable items max_weight) i c) := by
  have _ := hcap
  rw [← uint_range_eq] at hv hm
  rw [tableGet_fillTable, if_pos hi]
  exact isMaxValue_cell items max_weight (pos_weight_zero_free items hpos) hv hm i hi c hc

/-- Instance of `table_meaning` at the cell `(3, 7)` of the table of the fifth fixed test. -/
theorem table_meaning_witness :
    IsMaxValue ([⟨2, 3⟩, ⟨3, 4⟩, ⟨4, 5⟩, ⟨5, 8⟩].take 3) 7
      (tableGet (fillTable [⟨2, 3⟩, ⟨3, 4⟩, ⟨4, 5⟩, ⟨5, 8⟩] 10) 3 7) :=
  table_meaning [⟨2, 3⟩, ⟨3, 4⟩, ⟨4, 5⟩, ⟨5, 8⟩] 10 (by decide) (by decide) (by decide)
    (by decide) 3 7 (by decide) (by decide)

/-- A permutation of the items carries every selection to one of the same weight and value. -/
theorem perm_selection {l l' : List Item} (hp : l.Perm l') :
    ∀ s : List Bool, s.length = l.length →
      ∃ s' : List Bool, s'.length = l'.length ∧ selWeight l' s' = selWeight l s ∧
        selValue l' s' = selValue l s := by
  induction hp with
  | nil => intro s hs; exact ⟨[], rfl, by simp [selWeight], by simp [selValue]⟩
  | cons x _ ih =>
    intro s hs
    cases s with
    | nil => simp at hs
    | cons b s =>
      obtain ⟨s', h1, h2, h3⟩ := ih s (by simpa using hs)
      exact ⟨b :: s', by simp [h1], by simp [selWeight, h2], by simp [selValue, h3]⟩
  | swap x y l =>
    intro s hs
    cases s with
    | nil => simp at hs
    | cons a s =>
      cases s with
      | nil => simp at hs
      | cons b s =>
        refine ⟨b :: a :: s, by simpa using hs, ?_, ?_⟩
        · simp only [selWeight]; omega
        · simp only [selValue]; omega
  | trans _ _ ih1 ih2 =>
    intro s hs
    obtain ⟨s1, a1, a2, a3⟩ := ih1 s hs
    obtain ⟨s2, b1, b2, b3⟩ := ih2 s1 a1
    exact ⟨s2, b1, b2.trans a2, b3.trans a3⟩

theorem isMaxValue_perm {l l' : List Item} (hp : l.Perm l') (c v : Nat)
    (h : IsMaxValue l c v) : IsMaxValue l' c v := by
  obtain ⟨⟨s, ⟨hl, hw⟩, hval⟩, ub⟩ := h
  constructor
  · obtain ⟨s', h1, h2, h3⟩ := perm_selection hp s hl
    exact ⟨s', ⟨h1, by omega⟩, by omega⟩
  · intro t ⟨tl, tw⟩
    obtain ⟨t', h1, h2, h3⟩ := perm_selection hp.symm t tl
    have := ub t' ⟨h1, by omega⟩
    omega

theorem totalValue_perm {l l' : List Item} (hp : l.Perm l') : totalValue l' = totalValue l := by
  unfold totalValue
  exact ((hp.map Item.value).sum_eq).symm

/-- C7 (counterexample): at capacity 1 the items `[(0,5),(1,1)]` yield a selection worth 5,
their permutation `[(1,1),(0,5)]` a selection worth 6. -/
theorem knapsack_value_depends_on_order :
    List.Perm [(⟨1, 1⟩ : Item), ⟨0, 5⟩] [⟨0, 5⟩, ⟨1, 1⟩] ∧
      selValue [⟨1, 1⟩, ⟨0, 5⟩] (knapsack [⟨1, 1⟩, ⟨0, 5⟩] 1)
        ≠ selValue [⟨0, 5⟩, ⟨1, 1⟩] (knapsack [⟨0, 5⟩, ⟨1, 1⟩] 1) :=
  ⟨List.Perm.swap _ _ _, by decide⟩

/-- C7 (amended): when every item of weight 0 has value 0, the values sum to less than `2^32`
and the capacity is below `2^32 - 1`, the total value of the items selected by `knapsack` on a
permutation of the item list equals the total value selected on the original list. -/
theorem knapsack_value_perm (items items' : List Item) (max_weight : Nat)
    (hp : items'.Perm items)
    (h0 : ∀ it ∈ items, it.weight = 0 → it.value = 0)
    (hv : totalValue items < 2 ^ 32) (hm : max_weight < 2 ^ 32 - 1) :
    selValue items' (knapsack items' max_weight) = selValue items (knapsack items max_weight) := by
  rw [← uint_range_eq] at hv hm
  have h0' : ∀ it ∈ items', it.weight = 0 → it.value = 0 :=
    fun it hit => h0 it (hp.mem_iff.mp hit)
  have hv' : totalValue items' < UINT_RANGE := by rw [totalValue_perm hp.symm]; exact hv
  have h1 := knapsack_isMaxValue items max_weight h0 hv hm
  have h2 := knapsack_isMaxValue items' max_weight h0' hv' hm
  exact isMaxValue_unique items max_weight _ _ (isMaxValue_perm hp _ _ h2) h1

/-- C7 (amended), instance on a rotation of three items at capacity 4. -/
theorem knapsack_value_perm_witness :
    selValue [⟨3, 4⟩, ⟨0, 0⟩, ⟨2, 3⟩] (knapsack [⟨3, 4⟩, ⟨0, 0⟩, ⟨2, 3⟩] 4)
      = selValue [⟨0, 0⟩, ⟨2, 3⟩, ⟨3, 4⟩] (knapsack [⟨0, 0⟩, ⟨2, 3⟩, ⟨3, 4⟩] 4) :=
  knapsack_value_perm [⟨0, 0⟩, ⟨2, 3⟩, ⟨3, 4⟩] [⟨3, 4⟩, ⟨0, 0⟩, ⟨2, 3⟩] 4
    (by decide) (by decide) (by decide) (by decide)

/-- With weights of at least 1 the only selection of weight 0 is the all-`false` one. -/
theorem eq_replicate_of_weight_zero (xs : List Item) (hpos : ∀ it ∈ xs, 1 ≤ it.weight)
    (s : List Bool) (hl : s.length = xs.length) (hw : selWeight xs s = 0) :
    s = List.replicate xs.length false := by
  induction xs generalizing s with
  | nil =>
    have : s = [] := List.length_eq_zero.mp hl
    subst this; rfl
  | cons y ys ih =>
    cases s with
    | nil => simp at hl
    | cons b s =>
      simp only [selWeight, Nat.add_eq_zero] at hw
      have hy := hpos y (List.mem_cons_self _ _)
      have hb : b = false := by
        cases b with
        | false => rfl
        | true => simp at hw; omega
      subst hb
      rw [List.length_cons, List.replicate_succ,
        ← ih (fun it hit => hpos it (List.mem_cons_of_mem _ hit)) s (by simpa using hl) hw.2]

theorem revLexLt_snoc_same {a b : List Bool} (x : Bool) (hl : a.length = b.length)
    (h : RevLexLt a b) : RevLexLt (a ++ [x]) (b ++ [x]) := by
  obtain ⟨k, ha, hb, hj⟩ := h
  have hka : k < a.length := by
    by_contra hc
    rw [List.getElem?_eq_none (Nat.le_of_not_lt hc)] at ha
    exact absurd ha (by simp)
  refine ⟨k, ?_, ?_, ?_⟩
  · rw [List.getElem?_append_left hka]; exact ha
  · rw [List.getElem?_append_left (hl ▸ hka)]; exact hb
  · intro j hkj
    rw [List.getElem?_append, List.getElem?_append, hl, hj j hkj]

theorem revLexLt_snoc_top {a b : List Bool} (hl : a.length = b.length) :
    RevLexLt (a ++ [false]) (b ++ [true]) := by
  refine ⟨a.length, List.getElem?_concat_length _ _, ?_, ?_⟩
  · rw [hl]; exact List.getElem?_concat_length _ _
  · intro j hj
    rw [List.getElem?_eq_none (by simp; omega), List.getElem?_eq_none (by simp; omega)]

/-- The flags produced by the walk from `(k, c)` are the least selection, in the order
`RevLexLt`, among the selections of the first `k` items that fit `c` and are worth the
cell `(k, c)`. -/
theorem recon_least (items : List Item) (max_weight : Nat)
    (hpos : ∀ it ∈ items, 1 ≤ it.weight)
    (hv : totalValue items < UINT_RANGE) (hm : max_weight < UINT_RANGE - 1)
    (k : Nat) (hk : k ≤ items.length) (c : Nat) (hc : c ≤ max_weight) (s : List Bool)
    (hl : s.length = k) (hw : selWeight (items.take k) s ≤ c)
    (hval : selValue (items.take k) s = cell items max_weight k c) :
    s = recon items max_weight k c ∨ RevLexLt (recon items max_weight k c) s := by
  induction k generalizing c s with
  | zero =>
    left
    rw [List.length_eq_zero.mp hl]; rfl
  | succ k ih =>
    have hk' : k < items.length := by omega
    have hkl : k ≤ items.length := by omega
    have h0 := pos_weight_zero_free items hpos
    by_cases hc0 : c = 0
    · left
      subst hc0
      have hlt : (items.take (k + 1)).length = k + 1 := by rw [List.length_take]; omega
      have := eq_replicate_of_weight_zero (items.take (k + 1))
        (fun it hit => hpos it (List.mem_of_mem_take hit)) s (by rw [hl, hlt]) (by omega)
      rw [this, hlt]
      simp [recon]
    · obtain ⟨s0, b, rfl, hl0⟩ := exists_snoc_of_length s k hl
      rw [take_succ_getD items k hk'] at hw hval
      have hl0' : s0.length = (items.take k).length := by
        rw [List.length_take, hl0]; omega
      rw [selWeight_snoc _ _ _ _ hl0'] at hw
      rw [selValue_snoc _ _ _ _ hl0'] at hval
      have hrl : (recon items max_weight k c).length = s0.length := by
        rw [length_recon, hl0]
      simp only [recon, if_neg hc0]
      by_cases hne : cell items max_weight (k + 1) c ≠ cell items max_weight k c
      · rw [if_pos hne]
        obtain ⟨hr, hwc, he, hlt⟩ := cell_ne_above items max_weight k c hne
        have hcu : c < UINT_RANGE := lt_of_lt_of_le hr.2.2 (mod_uint_le _)
        rw [subSize_eq c _ hwc hcu]
        cases b with
        | false =>
          exfalso
          simp only [Bool.false_eq_true, if_false, Nat.add_zero] at hw hval
          have := selValue_le_cell items max_weight h0 hv hm k hkl c hc s0 hl0 hw
          omega
        | true =>
          simp only [if_true] at hw hval
          have h1 := cell_le_totalValue items max_weight k (c - (items.getD k default).weight)
          have h2 : totalValue (items.take (k + 1)) ≤ totalValue items := totalValue_take_le _ _
          rw [take_succ_getD items k hk', totalValue_snoc] at h2
          rw [he, Nat.mod_eq_of_lt (by omega)] at hval
          rcases ih hkl (c - (items.getD k default).weight) (by omega) s0 hl0 (by omega)
            (by omega) with h | h
          · left; rw [h]
          · right
            exact revLexLt_snoc_same true (by rw [length_recon, hl0]) h
      · rw [if_neg hne]
        simp only [ne_eq, not_not] at hne
        cases b with
        | true => right; exact revLexLt_snoc_top hrl
        | false =>
          simp only [Bool.false_eq_true, if_false, Nat.add_zero] at hw hval
          rcases ih hkl c hc s0 hl0 hw (by omega) with h | h
          · left; rw [h]
          · right; exact revLexLt_snoc_same false hrl h

/-- Tie-break toward exclude where the allocation does not wrap: when every weight is at least 1,
the values sum to less than `2^32` and the capacity is below `2^32 - 1`, the selection returned by `knapsack` is feasible, of maximal total
value, and every other feasible selection of maximal total value is above it in the order that
compares at the highest differing index and ranks `false` below `true`. -/
theorem knapsack_least_optimal (items : List Item) (max_weight : Nat)
    (hpos : ∀ it ∈ items, 1 ≤ it.weight)
    (hv : totalValue items < 2 ^ 32) (hm : max_weight < 2 ^ 32 - 1) :
    Feasible items max_weight (knapsack items max_weight) ∧
      (∀ sel, Feasible items max_weight sel →
        selValue items sel ≤ selValue items (knapsack items max_weight)) ∧
      ∀ sel, Feasible items max_weight sel →
        selValue items sel = selValue items (knapsack items max_weight) →
        sel = knapsack items max_weight ∨ RevLexLt (knapsack items max_weight) sel := by
  rw [← uint_range_eq] at hv hm
  have h0 := pos_weight_zero_free items hpos
  refine ⟨⟨by rw [knapsack_eq_recon, length_recon], knapsack_selWeight_le items max_weight⟩,
    (knapsack_isMaxValue items max_weight h0 hv hm).2, ?_⟩
  intro sel hsel hval
  rw [knapsack_selValue_eq_cell items max_weight hv] at hval
  have := recon_least items max_weight hpos hv hm items.length (Nat.le_refl _) max_weight
    (Nat.le_refl _) sel hsel.1 (by rw [List.take_length]; exact hsel.2)
    (by rw [List.take_length]; exact hval)
  rwa [← knapsack_eq_recon] at this

/-- Instance of `knapsack_least_optimal` with two equal items, where both single-item selections
are optimal. -/
theorem knapsack_least_optimal_witness :
    knapsack [⟨1, 1⟩, ⟨1, 1⟩] 1 = [true, false] ∧
      ([false, true] = knapsack [⟨1, 1⟩, ⟨1, 1⟩] 1 ∨
        RevLexLt (knapsack [⟨1, 1⟩, ⟨1, 1⟩] 1) [false, true]) :=
  ⟨by decide,
    (knapsack_least_optimal [⟨1, 1⟩, ⟨1, 1⟩] 1 (by decide) (by decide) (by decide)).2.2
      [false, true] (by decide) (by decide)⟩

theorem knapsackGeneral_eq (items : List Item) (max_weight : Nat) :
    knapsackGeneral items max_weight = knapsack items max_weight := by
  have := walk_eq_recon items max_weight items.length (Nat.le_refl _) max_weight []
  rw [knapsack_eq_recon]
  simpa [knapsackGeneral] using this

/-- C15: when the item list is empty or the capacity is 0, the general path of `knapsack`
(allocation, fill loops, backward walk) run without the early return yields the all-`false`
selection of length `n`, whatever the weights and values; and on every input `knapsack` with
and without the early return give the same selection. -/
theorem fast_path_redundant (items : List Item) (max_weight : Nat) :
    (items = [] ∨ max_weight = 0 →
        knapsackGeneral items max_weight = List.replicate items.length false) ∧
      knapsackGeneral items max_weight = knapsack items max_weight := by
  refine ⟨?_, knapsackGeneral_eq items max_weight⟩
  intro h
  rw [knapsackGeneral_eq]
  rcases h with h | h
  · subst h; simp [knapsack]
  · subst h; simp [knapsack]

/-- C15, instance: zero-weight items of positive value at capacity 0. -/
theorem fast_path_redundant_witness :
    knapsackGeneral [⟨0, 5⟩, ⟨1, 1⟩, ⟨0, 7⟩] 0 = List.replicate 3 false :=
  (fast_path_redundant [⟨0, 5⟩, ⟨1, 1⟩, ⟨0, 7⟩] 0).1 (by decide)

/-- Below the wrap of the allocation a cell does not depend on the capacity the table was
built for. -/
theorem cell_capacity_indep (items : List Item) (m m' : Nat)
    (hm : m < UINT_RANGE - 1) (hm' : m' < UINT_RANGE - 1) (i j : Nat)
    (hj : j ≤ m) (hj' : j ≤ m') :
    cell items m i j = cell items m' i j := by
  induction i generalizing j with
  | zero => simp [cell]
  | succ i ih =>
    simp only [cell, cols_eq _ hm, cols_eq _ hm']
    by_cases h1 : 1 ≤ j
    · have a : 1 ≤ j ∧ j ≤ m ∧ j < m + 1 := by omega
      have b : 1 ≤ j ∧ j ≤ m' ∧ j < m' + 1 := by omega
      rw [if_pos a, if_pos b, ih j hj hj',
        ih (j - (items.getD i default).weight) (by omega) (by omega)]
    · have a : ¬ (1 ≤ j ∧ j ≤ m ∧ j < m + 1) := by omega
      have b : ¬ (1 ≤ j ∧ j ≤ m' ∧ j < m' + 1) := by omega
      rw [if_neg a, if_neg b]

/-- Without wraparound the cells of a row grow with the column. -/
theorem cell_mono (items : List Item) (m : Nat)
    (hv : totalValue items < UINT_RANGE) (hm : m < UINT_RANGE - 1)
    (i : Nat) (hi : i ≤ items.length) (j j' : Nat) (hjj : j ≤ j') (hj' : j' ≤ m) :
    cell items m i j ≤ cell items m i j' := by
  induction i generalizing j j' with
  | zero => simp [cell]
  | succ i ih =>
    have hi' : i < items.length := by omega
    have hnw : ∀ c, (cell items m i c + (items.getD i default).value) % UINT_RANGE
        = cell items m i c + (items.getD i default).value := by
      intro c
      have h1 := cell_le_totalValue items m i c
      have h2 : totalValue (items.take (i + 1)) ≤ totalValue items := totalValue_take_le _ _
      rw [take_succ_getD items i hi', totalValue_snoc] at h2
      exact Nat.mod_eq_of_lt (by omega)
    simp only [cell, cols_eq _ hm, hnw]
    by_cases h1 : 1 ≤ j
    · have a : 1 ≤ j ∧ j ≤ m ∧ j < m + 1 := by omega
      have b : 1 ≤ j' ∧ j' ≤ m ∧ j' < m + 1 := by omega
      rw [if_pos a, if_pos b]
      have e1 := ih (by omega) j j' hjj hj'
      by_cases hw : (items.getD i default).weight > j
      · rw [if_pos hw]
        split_ifs
        · exact e1
        · exact le_trans e1 (le_max_left _ _)
      · have hw' : ¬ (items.getD i default).weight > j' := by omega
        rw [if_neg hw, if_neg hw']
        have e2 := ih (by omega) (j - (items.getD i default).weight)
          (j' - (items.getD i default).weight) (by omega) (by omega)
        exact max_le_max e1 (by omega)
    · have a : ¬ (1 ≤ j ∧ j ≤ m ∧ j < m + 1) := by omega
      rw [if_neg a]
      exact Nat.zero_le _

/-- C14: for an item list (weights may be 0) whose values sum to less than `2^32` and
capacities `c ≤ c' < 2^32 - 1`, the exact total value of the items selected by `knapsack` at
capacity `c` is at most the one selected at capacity `c'`. -/
theorem knapsack_value_mono (items : List Item) (c c' : Nat)
    (hv : totalValue items < 2 ^ 32) (hcc : c ≤ c') (hc' : c' < 2 ^ 32 - 1) :
    selValue items (knapsack items c) ≤ selValue items (knapsack items c') := by
  rw [← uint_range_eq] at hv hc'
  have hc : c < UINT_RANGE - 1 := by omega
  rw [knapsack_selValue_eq_cell items c hv, knapsack_selValue_eq_cell items c' hv,
    cell_capacity_indep items c c' hc hc' items.length c (Nat.le_refl _) hcc]
  exact cell_mono items c' hv hc' items.length (Nat.le_refl _) c c' hcc (Nat.le_refl _)

/-- C14, instance with a zero-weight item of positive value, capacities 1 and 3. -/
theorem knapsack_value_mono_witness :
    selValue [⟨0, 5⟩, ⟨1, 1⟩, ⟨2, 7⟩] (knapsack [⟨0, 5⟩, ⟨1, 1⟩, ⟨2, 7⟩] 1)
      ≤ selValue [⟨0, 5⟩, ⟨1, 1⟩, ⟨2, 7⟩] (knapsack [⟨0, 5⟩, ⟨1, 1⟩, ⟨2, 7⟩] 3) :=
  knapsack_value_mono [⟨0, 5⟩, ⟨1, 1⟩, ⟨2, 7⟩] 1 3 (by decide) (by decide) (by decide)

theorem fillCellNat_eq (items : List Item) (i : Nat) (t : Table) (j : Nat)
    (h : tableGet t (i - 1) (j - (items.getD (i - 1) default).weight)
      + (items.getD (i - 1) default).value < UINT_RANGE) :
    fillCellNat items i t j = fillCell items i t j := by
  simp only [fillCellNat, fillCell, Nat.mod_eq_of_lt h]

theorem fillRowNat_eq (items : List Item) {rows cols : Nat} (i : Nat) (hi : 1 ≤ i)
    (t : Table) (ht : Shaped rows cols t)
    (hb : ∀ j, tableGet t (i - 1) j + (items.getD (i - 1) default).value < UINT_RANGE)
    (m : Nat) :
    fillRowNat items m t i = fillRow items m t i := by
  induction m with
  | zero => simp [fillRowNat, fillRow]
  | succ m ih =>
    have s1 : fillRowNat items (m + 1) t i
        = fillCellNat items i (fillRowNat items m t i) (1 + m) := by
      simp [fillRowNat, List.range'_concat, List.foldl_append]
    have s2 : fillRow items (m + 1) t i = fillCell items i (fillRow items m t i) (1 + m) := by
      simp [fillRow, List.range'_concat, List.foldl_append]
    rw [s1, s2, ih]
    apply fillCellNat_eq
    have hne : ∀ j', ¬ (i - 1 = i ∧ 1 ≤ j' ∧ j' ≤ m ∧ i < rows ∧ j' < cols) := by
      intro j'; omega
    rw [(fillRow_spec items i hi t ht m).2, if_neg (hne _)]
    exact hb _

theorem fillRowsNat_eq (items : List Item) (max_weight : Nat)
    (hv : totalValue items < UINT_RANGE) (hm : max_weight < UINT_RANGE - 1)
    (k : Nat) (hk : k ≤ items.length) :
    (List.range' 1 k).foldl (fillRowNat items max_weight)
        (initTableNat items.length max_weight) =
      (List.range' 1 k).foldl (fillRow items max_weight)
        (initTable items.length max_weight) := by
  induction k with
  | zero => simp [initTableNat, initTable, cols_eq _ hm]
  | succ k ih =>
    have hk' : k < items.length := by omega
    obtain ⟨sh, rd⟩ := fillRows_spec items max_weight k (by omega)
    rw [List.range'_concat, List.foldl_append, List.foldl_append, ih (by omega)]
    simp only [Nat.one_mul, List.foldl_cons, List.foldl_nil, Nat.add_comm 1 k]
    apply fillRowNat_eq items (k + 1) (by omega) _ sh
    intro j
    rw [Nat.add_sub_cancel, rd, if_pos (Nat.le_refl _)]
    have h1 := cell_le_totalValue items max_weight k j
    have h2 : totalValue (items.take (k + 1)) ≤ totalValue items := totalValue_take_le _ _
    rw [take_succ_getD items k hk', totalValue_snoc] at h2
    omega

theorem fillTableNat_eq (items : List Item) (max_weight : Nat)
    (hv : totalValue items < UINT_RANGE) (hm : max_weight < UINT_RANGE - 1) :
    fillTableNat items max_weight = fillTable items max_weight :=
  fillRowsNat_eq items max_weight hv hm items.length (Nat.le_refl _)

theorem walkNat_eq (items : List Item) (max_weight k : Nat) (hk : k ≤ items.length)
    (c : Nat) (sol : List Bool) :
    walkNat items (fillTable items max_weight) k c sol =
      walk items (fillTable items max_weight) k c sol := by
  induction k generalizing c sol with
  | zero => simp [walkNat, walk]
  | succ k ih =>
    have hk' : k ≤ items.length := by omega
    simp only [walkNat, walk]
    split_ifs with h0 h1
    · rfl
    · rw [tableGet_fillTable, tableGet_fillTable, if_pos hk, if_pos hk'] at h1
      obtain ⟨hr, hw, -, -⟩ := cell_ne_above items max_weight k c h1
      have hc : c < UINT_RANGE := lt_of_lt_of_le hr.2.2 (mod_uint_le _)
      rw [subSize_eq c _ hw hc, ih hk']
    · exact ih hk' _ _

theorem knapsackNat_eq (items : List Item) (max_weight : Nat)
    (hv : totalValue items < UINT_RANGE) (hm : max_weight < UINT_RANGE - 1) :
    knapsackNat items max_weight = knapsack items max_weight := by
  simp only [knapsackNat, knapsack, fillTableNat_eq items max_weight hv hm,
    walkNat_eq items max_weight items.length (Nat.le_refl _)]

/-- C13: when the values sum to less than `2^32` and the capacity is below `2^32 - 1`, in every
row `1 ≤ i ≤ n` the sum `table[i-1][j - weight] + value` formed by the fill loop stays below
`2^32`, every cell `table[i][j]` is at most the sum of the values of the first `i` items, and
`knapsack` with 32-bit wraparound returns the same selection as the same algorithm computed
over unbounded natural numbers. -/
theorem no_wraparound (items : List Item) (max_weight : Nat)
    (hv : totalValue items < 2 ^ 32) (hm : max_weight < 2 ^ 32 - 1) :
    (∀ i j : Nat, 1 ≤ i → i ≤ items.length → (items.getD (i - 1) default).weight ≤ j →
        tableGet (fillTable items max_weight) (i - 1) (j - (items.getD (i - 1) default).weight)
          + (items.getD (i - 1) default).value < 2 ^ 32) ∧
      (∀ i j : Nat, i ≤ items.length →
        tableGet (fillTable items max_weight) i j ≤ totalValue (items.take i)) ∧
      knapsack items max_weight = knapsackNat items max_weight := by
  rw [← uint_range_eq] at hv hm ⊢
  refine ⟨?_, ?_, (knapsackNat_eq items max_weight hv hm).symm⟩
  · intro i j h1 hi _
    obtain ⟨k, rfl⟩ : ∃ k, i = k + 1 := ⟨i - 1, by omega⟩
    have hk' : k < items.length := by omega
    rw [Nat.add_sub_cancel, tableGet_fillTable, if_pos (by omega)]
    have h1 := cell_le_totalValue items max_weight k (j - (items.getD k default).weight)
    have h2 : totalValue (items.take (k + 1)) ≤ totalValue items := totalValue_take_le _ _
    rw [take_succ_getD items k hk', totalValue_snoc] at h2
    omega
  · intro i j hi
    rw [tableGet_fillTable, if_pos hi]
    exact cell_le_totalValue items max_weight i j

/-- C13, instance with values summing to `2^32 - 1`. -/
theorem no_wraparound_witness :
    knapsack [⟨1, 4294967290⟩, ⟨2, 3⟩, ⟨0, 2⟩] 3 = knapsackNat [⟨1, 4294967290⟩, ⟨2, 3⟩, ⟨0, 2⟩] 3 :=
  (no_wraparound [⟨1, 4294967290⟩, ⟨2, 3⟩, ⟨0, 2⟩] 3 (by decide) (by decide)).2.2

theorem tableGetChecked_eq {rows cols : Nat} {t : Table} (h : Shaped rows cols t)
    (i j : Nat) (hi : i < rows) (hj : j < cols) :
    tableGetChecked t i j = some (tableGet t i j) := by
  obtain ⟨h1, h2⟩ := h
  have hi' : i < t.length := h1 ▸ hi
  have hrow : (t[i]).length = cols := h2 _ (List.getElem_mem _)
  have hj' : j < (t[i]).length := hrow ▸ hj
  simp [tableGetChecked, tableGet, List.getElem?_eq_getElem hi', List.getElem?_eq_getElem hj']

theorem tableSetChecked_eq {rows cols : Nat} {t : Table} (h : Shaped rows cols t)
    (i j v : Nat) (hi : i < rows) (hj : j < cols) :
    tableSetChecked t i j v = some (tableSet t i j v) := by
  obtain ⟨h1, h2⟩ := h
  have hi' : i < t.length := h1 ▸ hi
  have hrow : (t[i]).length = cols := h2 _ (List.getElem_mem _)
  have hj' : j < (t[i]).length := hrow ▸ hj
  simp [tableSetChecked, tableSet, List.getElem?_eq_getElem hi', hj']

theorem getElem?_eq_getD (items : List Item) (k : Nat) (hk : k < items.length) :
    items[k]? = some (items.getD k default) := by
  simp [List.getElem?_eq_getElem hk]

theorem fillCellChecked_eq (items : List Item) {cols : Nat} (t : Table)
    (ht : Shaped (items.length + 1) cols t) (i j : Nat) (hi : 1 ≤ i) (hin : i ≤ items.length)
    (hj : j < cols) :
    fillCellChecked items i t j = some (fillCell items i t j) := by
  unfold fillCellChecked fillCell
  rw [getElem?_eq_getD items (i - 1) (by omega)]
  simp only
  split_ifs with hw
  · rw [tableGetChecked_eq ht (i - 1) j (by omega) hj, Option.some_bind,
      tableSetChecked_eq ht i j _ (by omega) hj]
  · have hs : subChecked j (items.getD (i - 1) default).weight
        = some (j - (items.getD (i - 1) default).weight) := by
      simp only [subChecked]; rw [if_pos (by omega)]
    rw [tableGetChecked_eq ht (i - 1) j (by omega) hj, Option.some_bind, hs, Option.some_bind,
      tableGetChecked_eq ht (i - 1) _ (by omega) (by omega), Option.some_bind,
      tableSetChecked_eq ht i j _ (by omega) hj]

theorem fillRowChecked_eq (items : List Item) {cols : Nat} (t : Table)
    (ht : Shaped (items.length + 1) cols t) (i : Nat) (hi : 1 ≤ i) (hin : i ≤ items.length)
    (m : Nat) (hm : m < cols) :
    fillRowChecked items m t i = some (fillRow items m t i) := by
  induction m with
  | zero => simp [fillRowChecked, fillRow]
  | succ m ih =>
    have s1 : fillRowChecked items (m + 1) t i
        = (fillRowChecked items m t i).bind fun t' => fillCellChecked items i t' (1 + m) := by
      simp [fillRowChecked, List.range'_concat, List.foldlM_append]
    have s2 : fillRow items (m + 1) t i = fillCell items i (fillRow items m t i) (1 + m) := by
      simp [fillRow, List.range'_concat, List.foldl_append]
    rw [s1, s2, ih (by omega), Option.some_bind]
    exact fillCellChecked_eq items _ (fillRow_spec items i hi t ht m).1 i (1 + m) hi hin
      (by omega)

theorem fillRowsChecked_eq (items : List Item) (max_weight : Nat)
    (hm : max_weight < UINT_RANGE - 1) (k : Nat) (hk : k ≤ items.length) :
    (List.range' 1 k).foldlM (fillRowChecked items max_weight)
        (initTable items.length max_weight) =
      some ((List.range' 1 k).foldl (fillRow items max_weight)
        (initTable items.length max_weight)) := by
  induction k with
  | zero => simp
  | succ k ih =>
    obtain ⟨sh, -⟩ := fillRows_spec items max_weight k (by omega)
    rw [cols_eq _ hm] at sh
    rw [List.range'_concat, List.foldlM_append, List.foldl_append, ih (by omega)]
    simp only [Nat.one_mul, List.foldl_cons, List.foldl_nil, Nat.add_comm 1 k]
    simpa using fillRowChecked_eq items _ sh (k + 1) (by omega) hk max_weight (by omega)

theorem fillTableChecked_eq (items : List Item) (max_weight : Nat)
    (hm : max_weight < UINT_RANGE - 1) :
    fillTableChecked items max_weight = some (fillTable items max_weight) :=
  fillRowsChecked_eq items max_weight hm items.length (Nat.le_refl _)

theorem shaped_fillTable (items : List Item) (max_weight : Nat)
    (hm : max_weight < UINT_RANGE - 1) :
    Shaped (items.length + 1) (max_weight + 1) (fillTable items max_weight) := by
  have h := (fillRows_spec items max_weight items.length (Nat.le_refl _)).1
  rwa [cols_eq _ hm] at h

theorem walkChecked_eq (items : List Item) (max_weight : Nat)
    (hm : max_weight < UINT_RANGE - 1) (k : Nat) (hk : k ≤ items.length)
    (c : Nat) (hc : c ≤ max_weight) (sol : List Bool) (hs : sol.length = items.length) :
    walkChecked items (fillTable items max_weight) k c sol =
      some (walk items (fillTable items max_weight) k c sol) := by
  induction k generalizing c sol with
  | zero => simp [walkChecked, walk]
  | succ k ih =>
    have hk' : k < items.length := by omega
    have sh := shaped_fillTable items max_weight hm
    simp only [walkChecked, walk]
    by_cases h0 : c = 0
    · rw [if_pos h0, if_pos h0]
    · rw [if_neg h0, if_neg h0, tableGetChecked_eq sh (k + 1) c (by omega) (by omega),
        Option.some_bind, tableGetChecked_eq sh k c (by omega) (by omega), Option.some_bind]
      by_cases h1 : tableGet (fillTable items max_weight) (k + 1) c
          ≠ tableGet (fillTable items max_weight) k c
      · rw [if_pos h1, if_pos h1, if_pos (by omega), getElem?_eq_getD items k hk']
        have h1' := h1
        rw [tableGet_fillTable, tableGet_fillTable, if_pos hk, if_pos (Nat.le_of_lt hk')] at h1'
        obtain ⟨hr, hw, -, -⟩ := cell_ne_above items max_weight k c h1'
        have hcu : c < UINT_RANGE := lt_of_lt_of_le hr.2.2 (mod_uint_le _)
        have hsub : subChecked c (items.getD k default).weight
            = some (c - (items.getD k default).weight) := by
          simp only [subChecked]; rw [if_pos hw]
        simp only [hsub, Option.some_bind]
        rw [subSize_eq c _ hw hcu]
        exact ih (Nat.le_of_lt hk') _ (by omega) _ (by simpa using hs)
      · rw [if_neg h1, if_neg h1]
        exact ih (Nat.le_of_lt hk') c hc sol hs

theorem knapsackChecked_eq (items : List Item) (max_weight : Nat)
    (hm : max_weight < UINT_RANGE - 1) :
    knapsackChecked items max_weight = some (knapsack items max_weight) := by
  unfold knapsackChecked knapsack
  simp only
  split_ifs with h
  · rfl
  · rw [fillTableChecked_eq items max_weight hm, Option.some_bind]
    exact walkChecked_eq items max_weight hm items.length (Nat.le_refl _) max_weight
      (Nat.le_refl _) _ (by simp)

/-- At capacity `2^32 - 1` the fill loops over the item `(1,1)` fail at their first table
access: the rows were allocated with 0 cells. -/
theorem fillTableChecked_uint_max : fillTableChecked [⟨1, 1⟩] 4294967295 = none := by
  have hr : List.range' 1 4294967295 = 1 :: List.range' 2 4294967294 :=
    List.range'_succ 1 4294967294 1
  have hcell : fillCellChecked [⟨1, 1⟩] 1 (initTable 1 4294967295) 1 = none := by decide
  have hrow : fillRowChecked [⟨1, 1⟩] 4294967295 (initTable 1 4294967295) 1 = none := by
    unfold fillRowChecked
    rw [hr, List.foldlM_cons, hcell]
    rfl
  unfold fillTableChecked
  have h1 : List.range' 1 ([(⟨1, 1⟩ : Item)]).length = [1] := rfl
  rw [h1, List.foldlM_cons]
  have h2 : ([(⟨1, 1⟩ : Item)]).length = 1 := rfl
  rw [h2, hrow]
  rfl

/-- The checks do fail outside the bound: at capacity `2^32 - 1` the allocation wraps to rows
of 0 cells and the first read of the fill loop is out of range. -/
theorem knapsackChecked_uint_max : knapsackChecked [⟨1, 1⟩] 4294967295 = none := by
  unfold knapsackChecked
  simp only
  rw [if_neg (by decide), fillTableChecked_uint_max]
  rfl

/-- C8 (failing input): for the single item `(1,1)` and capacity `2^32 - 1` the `unsigned` sum
`max_weight + 1` of the allocation wraps to 0, the table is two rows of 0 cells, and the fill
loops run with checked accesses fail (their first access is out of range): no cell `(1, 1)`
holding the maximum value 1 is produced. -/
theorem fill_fails_at_uint_max :
    initTable ([⟨1, 1⟩] : List Item).length 4294967295 = [[], []] ∧
      fillTableChecked [⟨1, 1⟩] 4294967295 = none :=
  ⟨by decide, fillTableChecked_uint_max⟩

/-- C10 (failing input): for the single item `(1,1)` and capacity `2^32 - 1`, `knapsack` run
with checked accesses fails in the fill loops and returns no selection, although the selection
`[true]` is feasible and worth 1. -/
theorem no_selection_at_uint_max :
    knapsackChecked [⟨1, 1⟩] 4294967295 = none ∧
      Feasible [⟨1, 1⟩] 4294967295 [true] ∧ selValue [⟨1, 1⟩] [true] = 1 :=
  ⟨knapsackChecked_uint_max, by decide, by decide⟩

/-- C12: for a capacity below `2^32 - 1` the allocated table has `n + 1` rows of
`capacity + 1` cells, and `knapsack` run with every access checked (reads and writes of
`table` in the fill loops and in the walk, reads of `items`, writes of `solution`, and the
subtractions `j - weight` and `currWeight -= weight`) never fails a check and returns the
selection of `knapsack`. -/
theorem no_out_of_range_access (items : List Item) (max_weight : Nat)
    (hm : max_weight < 2 ^ 32 - 1) :
    Shaped (items.length + 1) (max_weight + 1) (initTable items.length max_weight) ∧
      Shaped (items.length + 1) (max_weight + 1) (fillTable items max_weight) ∧
      knapsackChecked items max_weight = some (knapsack items max_weight) := by
  rw [← uint_range_eq] at hm
  refine ⟨?_, shaped_fillTable items max_weight hm, knapsackChecked_eq items max_weight hm⟩
  have h := shaped_initTable items.length max_weight
  rwa [cols_eq _ hm] at h

/-- C12, instance with a zero-weight item and values that make the table wrap. -/
theorem no_out_of_range_access_witness :
    knapsackChecked [⟨0, 5⟩, ⟨1, 4294967295⟩, ⟨1, 3⟩] 2
      = some (knapsack [⟨0, 5⟩, ⟨1, 4294967295⟩, ⟨1, 3⟩] 2) :=
  (no_out_of_range_access [⟨0, 5⟩, ⟨1, 4294967295⟩, ⟨1, 3⟩] 2 (by decide)).2.2

end Knapsack
